import Mathlib

/-!
Verification of the EVE SDE search/update tool.

This file shallowly embeds the core data operations of the repository:

* `build_index` / `search` of `src/core/eve_db.py` (SQLite-backed index
  builder and indexed query path),
* the fallback streaming search of `eve_search_gui.py` (`SearchWorker.run`),
* the change-log generation `get_SDE_update` of
  `src/gui/main_window.py` (`UpdateWorker`), and
* the index rebuild workflow `IndexWorker.run` / `clear_db`.

Python/JSON specifics are modelled explicitly: JSON values as an inductive
type with Python truthiness and `str()` conversion; Python `s.lower()`,
`s.strip()` and `s.split()` as structurally recursive functions over
`List Char` (ASCII lowercasing; the claims only exercise ASCII and CJK
characters, which Python lowercasing also leaves unchanged); SQLite `LIKE`
patterns as a recursive matcher where `%` matches any sequence and `_` any
single character (both query tokens and indexed text are already
lowercased by the Python code before SQLite compares them, so the
matcher compares characters exactly).
-/

namespace EveSDE

/-! ## JSON values (`json.loads` results) -/

/-- A parsed JSON value, as produced by `json.loads` of one line. -/
inductive JVal where
  | jnull : JVal
  | jbool : Bool → JVal
  | jint : Int → JVal
  | jstr : String → JVal
  | jarr : List JVal → JVal
  | jobj : List (String × JVal) → JVal

/-- Python truthiness of a JSON value (`None`, `0`, `""`, `[]`, `{}`,
`False` are falsy). -/
def JVal.truthy : JVal → Bool
  | .jnull => false
  | .jbool b => b
  | .jint n => n != 0
  | .jstr s => s != ""
  | .jarr l => !l.isEmpty
  | .jobj l => !l.isEmpty

/-- Model of `d.get(k)` on a parsed JSON object: `jnull` models Python `None`
(both a stored JSON `null` and a missing key). Non-objects have no keys. -/
def JVal.getKey : JVal → String → JVal
  | .jobj fields, k => ((fields.lookup k).getD .jnull)
  | _, _ => .jnull

/-- Python `a or b`: the left value if truthy, otherwise the right value. -/
def pyOr (a b : JVal) : JVal := if a.truthy then a else b

/-- Python `str()` of a JSON value, as far as the code exercises it
(ids are strings or integers; `None` prints as `"None"`). -/
def JVal.pyStr : JVal → String
  | .jnull => "None"
  | .jbool true => "True"
  | .jbool false => "False"
  | .jint n => toString n
  | .jstr s => s
  | .jarr _ => "<list>"
  | .jobj _ => "<dict>"

/-! ## Python string operations, modelled on `List Char`

All functions below are structurally recursive so that concrete inputs
evaluate inside the kernel. -/

/-- Python `lower()` (ASCII range; CJK and punctuation are fixed points,
as in Python). -/
def lowerL (l : List Char) : List Char := l.map Char.toLower

/-- Accumulator form of whitespace splitting: `cur` is the reversed
characters of the token being read. -/
def splitWsAux : List Char → List Char → List (List Char)
  | cur, [] => if cur.isEmpty then [] else [cur.reverse]
  | cur, c :: cs =>
    if c.isWhitespace then
      if cur.isEmpty then splitWsAux [] cs else cur.reverse :: splitWsAux [] cs
    else splitWsAux (c :: cur) cs

/-- Python `s.split()`: split on runs of whitespace, dropping empty
pieces (so leading/trailing whitespace is ignored, making a preceding
`strip()` a no-op). -/
def splitWs (l : List Char) : List (List Char) := splitWsAux [] l

/-- The token list the query paths derive from a keyword:
`keyword.lower().strip().split()` in `EveDB.search`, and equivalently
`keyword.lower().split()` in the fallback `SearchWorker.run`. -/
def pyTokens (s : String) : List (List Char) := splitWs (lowerL s.toList)

/-- Predicate: `n` is a contiguous substring of `h`. -/
def SubstrOf (n h : List Char) : Prop := ∃ s t, h = s ++ n ++ t

/-- Executable test: `n` begins `h`. -/
def matchPre : List Char → List Char → Bool
  | [], _ => true
  | _ :: _, [] => false
  | a :: as, b :: bs => a == b && matchPre as bs

/-- Executable substring test. -/
def matchSub (n : List Char) : List Char → Bool
  | [] => n.isEmpty
  | c :: ts => matchPre n (c :: ts) || matchSub n ts

/-- Model of `it = iter(text); c in it`: consume the iterator up to and including
the first occurrence of `c`, returning the rest, or `none` if `c` never
occurs. -/
def consume (c : Char) : List Char → Option (List Char)
  | [] => none
  | d :: ts => if d == c then some ts else consume c ts

/-- Model of `all(char in iterator for char in kw)`: greedy subsequence matching
over a single shared iterator. -/
def greedySub : List Char → List Char → Bool
  | [], _ => true
  | c :: cs, t =>
    match consume c t with
    | none => false
    | some t' => greedySub cs t'

/-- Helper for the `%` case of `LIKE`: try the rest of the pattern at every
suffix of the text. -/
def likeStarAux (rest : List Char → Bool) : List Char → Bool
  | [] => rest []
  | c :: ts => rest (c :: ts) || likeStarAux rest ts

/-- SQLite `LIKE` matching of a whole text against a pattern:
`%` matches any character sequence, `_` any single character, everything
else itself (both sides are pre-lowercased by the Python code). -/
def likeMatch : List Char → List Char → Bool
  | [], t => t.isEmpty
  | c :: ps, t =>
    if c == '%' then likeStarAux (fun t' => likeMatch ps t') t
    else
      match t with
      | [] => false
      | d :: ts => (c == '_' || c == d) && likeMatch ps ts

/-- A token containing neither `LIKE` wildcard. -/
def noWild (l : List Char) : Bool := l.all (fun c => c != '%' && c != '_')

/-- Lowercase a `String` (`s.lower()`), producing a `String`. -/
def lowerS (s : String) : String := String.mk (lowerL s.toList)

/-! ## Index Builder — `EveDB.build_index` (`src/core/eve_db.py`)

A table file is modelled as its list of successfully parsed lines
(`json.loads` failures are skipped by the `except: continue` and are
simply absent here); the raw-text `json_data` column is modelled by the
parsed value it holds. -/

/-- One row of the `items` table. -/
structure IndexRow where
  id : String
  source_file : String
  name_zh : String
  name_en : String
  search_text : String
  json_data : JVal

/-- Model of `name_data.get("en", "")`: the stored value stringified, with a
missing key giving `""` rather than `"None"`. -/
def JVal.pyStr' : JVal → String
  | .jnull => ""
  | v => v.pyStr

/-- Localized-name resolution shared verbatim by `EveDB.build_index` and
the fallback `SearchWorker.run`:
`name_data = data.get("name", {})`; a mapping contributes its `"en"` /
`"zh"` entries, a plain string is used for both locales, anything else
leaves both names empty. Returns `(name_zh, name_en)`. -/
def extractNames (data : JVal) : String × String :=
  let name_data := match data.getKey "name" with
    | .jnull => JVal.jobj []        -- `.get("name", {})` default
    | v => v
  match name_data with
  | .jobj _ =>
      ((name_data.getKey "zh").pyStr' , (name_data.getKey "en").pyStr')
  | .jstr s => (s, s)
  | _ => ("", "")

/-- Model of `data.get("_key") or data.get("id") or data.get("typeID")`:
a Python `or`-chain, so a falsy value (`0`, `""`, `None`) falls through
to the next field. -/
def resolveId (data : JVal) : JVal :=
  pyOr (pyOr (data.getKey "_key") (data.getKey "id")) (data.getKey "typeID")

/-- Model of `str(item_id) if item_id is not None else ""`. -/
def idStr (v : JVal) : String :=
  match v with
  | .jnull => ""
  | w => w.pyStr

/-- The `items` row `build_index` appends for one parsed line — every
parsed line is appended, there is no branch excluding records without a
resolvable id. -/
def processRecord (file_name : String) (data : JVal) : IndexRow :=
  let item_id_str := idStr (resolveId data)
  let names := extractNames data
  { id := item_id_str
  , source_file := file_name
  , name_zh := names.1
  , name_en := names.2
  , search_text := lowerS (item_id_str ++ " " ++ names.1 ++ " " ++ names.2)
  , json_data := data }

/-- All rows `build_index` inserts for a snapshot directory, in insertion
order (batching at 1000 only groups the INSERT statements and does not
change the rows or their order). -/
def buildIndexRows (files : List (String × List JVal)) : List IndexRow :=
  files.flatMap (fun f => f.2.map (processRecord f.1))

/-! ## Indexed query path — `EveDB.search` and `SearchWorker.run` -/

/-- The `WHERE` clause built by `EveDB.search`: one
`search_text LIKE '%token%'` condition per token, joined by `AND`. -/
def rowMatches (tokens : List (List Char)) (r : IndexRow) : Bool :=
  tokens.all (fun kw => likeMatch ('%' :: (kw ++ ['%'])) r.search_text.toList)

/-- The full (uncapped) match set of a keyword against the index. -/
def searchMatches (rows : List IndexRow) (keyword : String) : List IndexRow :=
  rows.filter (rowMatches (pyTokens keyword))

/-- Model of `EveDB.search(keyword, limit)`: tokenize, filter, cap at `limit`.
With no tokens the generated SQL is `SELECT * FROM items WHERE  LIMIT n`,
which SQLite rejects with a syntax error — `sqlite3.OperationalError`
propagates out of `search` instead of a result list. -/
def search (rows : List IndexRow) (keyword : String) (limit : Nat) :
    Except String (List IndexRow) :=
  let tokens := pyTokens keyword
  if tokens.isEmpty then .error "near LIMIT: syntax error"
  else .ok ((rows.filter (rowMatches tokens)).take limit)

/-- Model of `SearchWorker.run` (`src/gui/main_window.py`): calls
`db.search(keyword)` with the default `limit=1000`, emits each returned
row, then reports `len(results)` through `finished`. -/
def searchWorkerRun (rows : List IndexRow) (keyword : String) :
    Except String (List IndexRow × Nat) :=
  (search rows keyword 1000).map (fun rs => (rs, rs.length))

/-! ## Fallback query path — `SearchWorker.run` (`eve_search_gui.py`) -/

/-- Per-token fallback matching: direct substring first, then the greedy
subsequence pass over a fresh iterator of the same text. -/
def fallbackTokenMatch (kw full : List Char) : Bool :=
  matchSub kw full || greedySub kw full

/-- The text `full_text = (name_en + " " + name_zh).lower()` of one parsed record. -/
def fallbackFullText (data : JVal) : List Char :=
  lowerL (((extractNames data).2 ++ " " ++ (extractNames data).1).toList)

/-- Whether the fallback scan keeps one parsed record: every token of the
lowercased, whitespace-split keyword must match `full_text`. -/
def fallbackRecordMatch (keyword : String) (data : JVal) : Bool :=
  (pyTokens keyword).all (fun kw => fallbackTokenMatch kw (fallbackFullText data))

/-- Whether the indexed path accepts the index row built from the same
parsed record (the `WHERE` clause applied to `processRecord`'s row). -/
def indexedRecordMatch (keyword file_name : String) (data : JVal) : Bool :=
  rowMatches (pyTokens keyword) (processRecord file_name data)

/-! ## Index rebuild workflow — `IndexWorker.run`, `EveDB.clear_db`

The Index Store state is its list of rows. `build_index` runs inside a
single transaction committed at the end; an exception triggers
`self.conn.rollback()`, so a failed `build_index` leaves the state it
was given. `clear_db`, however, executes `DELETE FROM items` and
immediately **commits** (then VACUUMs) before `build_index` ever starts.
The success/failure of the build is an exogenous input here (an I/O or
parse-layer exception). -/

/-- Model of `EveDB.clear_db`: delete every row and commit. -/
def clear_db (_st : List IndexRow) : List IndexRow := []

/-- Model of `EveDB.build_index` as a state transformer: on success append all new
rows (single committed transaction); on failure roll back to the state
at entry. -/
def build_index_run (st : List IndexRow) (files : List (String × List JVal))
    (ok : Bool) : List IndexRow :=
  if ok then st ++ buildIndexRows files else st

/-- Model of `IndexWorker.run`: `init_db` (schema only), `clear_db` (committed),
then `build_index`. -/
def indexWorkerRun (st : List IndexRow) (files : List (String × List JVal))
    (ok : Bool) : List IndexRow :=
  build_index_run (clear_db st) files ok

/-! ## Change-log generation — `UpdateWorker.get_SDE_update`
(`src/gui/main_window.py`)

Ids are modelled as strings (the string abstraction of the JSON id
values compared by `item_id in added_ids`); a snapshot table record is
its resolved `_key` (`data.get("_key")`, `none` when absent) together
with its parsed payload. The change manifest is the list of its
successfully parsed non-`_meta` entries in stream order (unparseable
lines are skipped by the `except` handler and absent here; `_meta` is
kept representable since the code skips it explicitly). -/

/-- One parsed line of a snapshot table file. -/
structure SRecord where
  key : Option String
  data : JVal

/-- One parsed line of the change manifest. -/
structure ManifestEntry where
  key : String
  added : List String
  changed : List String
  removed : List String
  fileAdded : Bool

/-- A line written to the change-log file. -/
structure ChangeEntry where
  table : String
  id : Option String
  status : String
  payload : JVal

/-- The synthesized placeholder record written for a removed id. -/
def removedRecord (tbl rid : String) : JVal :=
  .jobj [("_key", .jstr rid), ("_source_table", .jstr tbl),
         ("_status", .jstr "removed"),
         ("name", .jobj [("en", .jstr "(Item Removed)"),
                         ("zh", .jstr "(条目已删除)")])]

/-- Model of `data["_source_table"] = key; data["_status"] = status` on a parsed
record before it is dumped to the change log. -/
def tagPayload (d : JVal) (tbl st : String) : JVal :=
  match d with
  | .jobj fields =>
      .jobj (fields ++ [("_source_table", .jstr tbl), ("_status", .jstr st)])
  | v => v

/-- Membership of a record's (optional) `_key` in a manifest id set. -/
def memOpt (k : Option String) (l : List String) : Bool :=
  match k with
  | some s => decide (s ∈ l)
  | none => false

/-- The status chain of the table-file scan:
`added` if the id is in `added_ids`, else `changed` if in `changed_ids`,
else `added` again when the whole file is new (`fileAdded`), else no
entry. -/
def recordStatus (e : ManifestEntry) (k : Option String) : Option String :=
  if memOpt k e.added then some "added"
  else if memOpt k e.changed then some "changed"
  else if e.fileAdded then some "added"
  else none

/-- The change-log lines one manifest entry produces: skip `_meta`; skip
entries with nothing to report; removed ids first (placeholder payloads,
no file read), then one single pass over the post-update table file —
when it exists — emitting each record whose status chain resolves. -/
def processEntry (tables : List (String × List SRecord)) (e : ManifestEntry) :
    List ChangeEntry :=
  if e.key == "_meta" then []
  else if e.added.isEmpty && e.changed.isEmpty && e.removed.isEmpty
          && !e.fileAdded then []
  else
    let removedEntries := e.removed.map (fun rid =>
      { table := e.key, id := some rid, status := "removed"
      , payload := removedRecord e.key rid })
    let acEntries :=
      if !e.added.isEmpty || !e.changed.isEmpty || e.fileAdded then
        match tables.lookup e.key with
        | none => []
        | some recs =>
            recs.filterMap (fun r =>
              (recordStatus e r.key).map (fun st =>
                { table := e.key, id := r.key, status := st
                , payload := tagPayload r.data e.key st }))
      else []
    removedEntries ++ acEntries

/-- All change-log lines of one `get_SDE_update` invocation, in the order
they are written. -/
def getSDEUpdate (tables : List (String × List SRecord))
    (manifest : List ManifestEntry) : List ChangeEntry :=
  manifest.flatMap (processEntry tables)

/-- The change-log file's content after one `get_SDE_update` run:
`open(changes_file, "w")` first truncates the file whatever it held, then
each emitted entry is appended in order. The prior content is an explicit
argument to make the truncation visible. -/
def runSync (tables : List (String × List SRecord))
    (manifest : List ManifestEntry) (_priorFile : List ChangeEntry) :
    List ChangeEntry :=
  (getSDEUpdate tables manifest).foldl (fun acc entry => acc ++ [entry]) []

/-! ## Concrete fixtures used by the claim theorems -/

/-- A record with id `"34"` and English name `"Tritanium"`. -/
def rec34json : JVal :=
  .jobj [("_key", .jstr "34"), ("name", .jobj [("en", .jstr "Tritanium")])]

/-- A record with id `"35"` and English name `"Tritanium"`. -/
def rec35json : JVal :=
  .jobj [("_key", .jstr "35"), ("name", .jobj [("en", .jstr "Tritanium")])]

/-- The index rows built from the two records above. -/
def row34 : IndexRow := processRecord "types.jsonl" rec34json

def row35 : IndexRow := processRecord "types.jsonl" rec35json

/-- A record whose Chinese name is `"高级辟邪"`. -/
def recGao : JVal :=
  .jobj [("_key", .jstr "1"), ("name", .jobj [("zh", .jstr "高级辟邪")])]

/-- A minimal indexable record and its row, for cap/count claims. -/
def recXjson : JVal := .jobj [("_key", .jstr "x")]

def rowX : IndexRow := processRecord "f.jsonl" recXjson

/-! ## Characterization lemmas for the executable string matchers -/

theorem matchPre_iff (n h : List Char) : matchPre n h = true ↔ ∃ t, h = n ++ t := by
  induction n generalizing h with
  | nil => simp [matchPre]
  | cons a as ih =>
    cases h with
    | nil => simp [matchPre]
    | cons b bs =>
      simp only [matchPre, Bool.and_eq_true, beq_iff_eq, ih, List.cons_append,
        List.cons.injEq]
      constructor
      · rintro ⟨rfl, t, rfl⟩; exact ⟨t, rfl, rfl⟩
      · rintro ⟨t, rfl, rfl⟩; exact ⟨rfl, t, rfl⟩

theorem matchSub_iff (n h : List Char) : matchSub n h = true ↔ SubstrOf n h := by
  induction h with
  | nil =>
    simp only [matchSub, SubstrOf, List.isEmpty_iff]
    constructor
    · rintro rfl; exact ⟨[], [], rfl⟩
    · rintro ⟨s, t, hst⟩
      rcases List.append_eq_nil.mp hst.symm with ⟨h1, h2⟩
      exact (List.append_eq_nil.mp h1).2
  | cons c ts ih =>
    simp only [matchSub, Bool.or_eq_true, matchPre_iff, ih]
    constructor
    · rintro (⟨t, ht⟩ | ⟨s, t, rfl⟩)
      · exact ⟨[], t, by simpa using ht⟩
      · exact ⟨c :: s, t, rfl⟩
    · rintro ⟨s, t, hst⟩
      cases s with
      | nil => exact Or.inl ⟨t, by simpa using hst⟩
      | cons d s' =>
        simp only [List.cons_append, List.cons.injEq] at hst
        exact Or.inr ⟨s', t, hst.2⟩

theorem substrOf_append_right {n a : List Char} (b : List Char)
    (h : SubstrOf n a) : SubstrOf n (a ++ b) := by
  obtain ⟨s, t, rfl⟩ := h
  exact ⟨s, t ++ b, by simp [List.append_assoc]⟩

theorem substrOf_append_left {n b : List Char} (a : List Char)
    (h : SubstrOf n b) : SubstrOf n (a ++ b) := by
  obtain ⟨s, t, rfl⟩ := h
  exact ⟨a ++ s, t, by simp [List.append_assoc]⟩

theorem likeStarAux_iff (f : List Char → Bool) (t : List Char) :
    likeStarAux f t = true ↔ ∃ t₁ t₂, t = t₁ ++ t₂ ∧ f t₂ = true := by
  induction t with
  | nil =>
    simp only [likeStarAux]
    constructor
    · intro h; exact ⟨[], [], rfl, h⟩
    · rintro ⟨t₁, t₂, hsplit, h⟩
      rcases List.append_eq_nil.mp hsplit.symm with ⟨rfl, rfl⟩
      exact h
  | cons c ts ih =>
    simp only [likeStarAux, Bool.or_eq_true, ih]
    constructor
    · rintro (h | ⟨t₁, t₂, rfl, h⟩)
      · exact ⟨[], c :: ts, rfl, h⟩
      · exact ⟨c :: t₁, t₂, rfl, h⟩
    · rintro ⟨t₁, t₂, hsplit, h⟩
      cases t₁ with
      | nil =>
        left; rw [List.nil_append] at hsplit; rw [hsplit]; exact h
      | cons d t₁' =>
        simp only [List.cons_append, List.cons.injEq] at hsplit
        exact Or.inr ⟨t₁', t₂, hsplit.2, h⟩

theorem likeMatch_star (ps t : List Char) :
    likeMatch ('%' :: ps) t = likeStarAux (fun t' => likeMatch ps t') t := by
  simp [likeMatch]

theorem likeMatch_single_star (t : List Char) : likeMatch ['%'] t = true := by
  rw [likeMatch_star, likeStarAux_iff]
  exact ⟨t, [], by simp, rfl⟩

theorem likeMatch_noWild_pre :
    ∀ ps : List Char, noWild ps = true →
      ∀ t : List Char, (likeMatch (ps ++ ['%']) t = true ↔ ∃ r, t = ps ++ r) := by
  intro ps
  induction ps with
  | nil =>
    intro _ t
    simpa using likeMatch_single_star t
  | cons c ps' ih =>
    intro hw t
    rw [show noWild (c :: ps') = ((c != '%' && c != '_') && noWild ps') from rfl,
      Bool.and_eq_true, Bool.and_eq_true] at hw
    obtain ⟨⟨hcp, hcu⟩, hw'⟩ := hw
    have hcpf : (c == '%') = false := by
      cases hq : c == '%' <;> simp_all [bne]
    have hcuf : (c == '_') = false := by
      cases hq : c == '_' <;> simp_all [bne]
    have ihs := ih hw'
    cases t with
    | nil =>
      constructor
      · intro h
        rw [show likeMatch ((c :: ps') ++ ['%']) [] = false from by
          simp [likeMatch, hcpf]] at h
        exact absurd h (by simp)
      · rintro ⟨r, hr⟩
        exact absurd hr (by simp)
    | cons d ts =>
      rw [show likeMatch ((c :: ps') ++ ['%']) (d :: ts)
          = ((c == '_' || c == d) && likeMatch (ps' ++ ['%']) ts) from by
        simp [likeMatch, hcpf]]
      rw [Bool.and_eq_true, Bool.or_eq_true, hcuf]
      constructor
      · rintro ⟨hcd, h2⟩
        rcases hcd with hff | hcd
        · exact absurd hff (by simp)
        · obtain ⟨r, rfl⟩ := (ihs ts).mp h2
          exact ⟨r, by simp [beq_iff_eq.mp hcd]⟩
      · rintro ⟨r, hr⟩
        simp only [List.cons_append, List.cons.injEq] at hr
        obtain ⟨rfl, hts⟩ := hr
        exact ⟨Or.inr (by simp), (ihs ts).mpr ⟨r, hts⟩⟩

theorem likeMatch_noWild_iff (kw t : List Char) (hw : noWild kw = true) :
    likeMatch ('%' :: (kw ++ ['%'])) t = true ↔ SubstrOf kw t := by
  rw [likeMatch_star, likeStarAux_iff]
  constructor
  · rintro ⟨t₁, t₂, rfl, h⟩
    obtain ⟨r, rfl⟩ := (likeMatch_noWild_pre kw hw t₂).mp h
    exact ⟨t₁, r, by simp [List.append_assoc]⟩
  · rintro ⟨s, r, rfl⟩
    exact ⟨s, kw ++ r, by simp [List.append_assoc],
      (likeMatch_noWild_pre kw hw (kw ++ r)).mpr ⟨r, rfl⟩⟩

theorem consume_some {c : Char} {t t' : List Char} (h : consume c t = some t') :
    ∃ pre, t = pre ++ c :: t' := by
  induction t generalizing t' with
  | nil => simp [consume] at h
  | cons d ts ih =>
    by_cases hd : d = c
    · subst hd
      have hts : ts = t' := by simpa [consume] using h
      exact ⟨[], by simp [hts]⟩
    · simp only [consume, beq_iff_eq, if_neg hd] at h
      obtain ⟨pre, rfl⟩ := ih h
      exact ⟨d :: pre, rfl⟩

theorem consume_of_sublist {c : Char} {cs t : List Char}
    (h : (c :: cs).Sublist t) : ∃ t', consume c t = some t' ∧ cs.Sublist t' := by
  induction t with
  | nil => simp at h
  | cons d ts ih =>
    by_cases hd : d = c
    · subst hd
      refine ⟨ts, by simp [consume], ?_⟩
      cases h with
      | cons _ h' => exact ((List.sublist_cons_self _ _).trans h')
      | cons₂ _ h' => exact h'
    · cases h with
      | cons _ h' =>
        obtain ⟨t', ht', hsub⟩ := ih h'
        refine ⟨t', ?_, hsub⟩
        simpa [consume, hd] using ht'
      | cons₂ _ h' => exact absurd rfl hd

theorem greedySub_iff (kw t : List Char) : greedySub kw t = true ↔ kw.Sublist t := by
  induction kw generalizing t with
  | nil => simp [greedySub, List.nil_sublist]
  | cons c cs ih =>
    constructor
    · intro h
      cases hc : consume c t with
      | none =>
        rw [show greedySub (c :: cs) t = false from by simp [greedySub, hc]] at h
        simp at h
      | some t' =>
        rw [show greedySub (c :: cs) t = greedySub cs t' from by
          simp [greedySub, hc]] at h
        obtain ⟨pre, rfl⟩ := consume_some hc
        have hsub : (c :: cs).Sublist (c :: t') :=
          List.cons_sublist_cons.mpr ((ih t').mp h)
        exact hsub.trans (List.sublist_append_right pre (c :: t'))
    · intro h
      obtain ⟨t', hc, hsub⟩ := consume_of_sublist h
      rw [show greedySub (c :: cs) t = greedySub cs t' from by simp [greedySub, hc]]
      exact (ih t').mpr hsub

/-! ## Tokenization and file-append lemmas -/

theorem toLower_whitespace {c : Char} (h : c.isWhitespace = true) :
    (Char.toLower c).isWhitespace = true := by
  simp only [Char.isWhitespace, Bool.or_eq_true, decide_eq_true_eq] at h
  rcases h with ((rfl | rfl) | rfl) | rfl <;> decide

theorem splitWsAux_all_ws :
    ∀ l : List Char, (∀ c ∈ l, c.isWhitespace = true) → splitWsAux [] l = [] := by
  intro l
  induction l with
  | nil => intro _; simp [splitWsAux]
  | cons c cs ih =>
    intro h
    rw [show splitWsAux [] (c :: cs)
        = if c.isWhitespace then splitWsAux [] cs else splitWsAux [c] cs from by
      simp [splitWsAux]]
    rw [if_pos (h c (by simp))]
    exact ih (fun d hd => h d (by simp [hd]))

theorem pyTokens_all_ws (s : String) (h : ∀ c ∈ s.toList, c.isWhitespace = true) :
    pyTokens s = [] := by
  unfold pyTokens splitWs
  apply splitWsAux_all_ws
  intro c hc
  unfold lowerL at hc
  obtain ⟨d, hd, rfl⟩ := List.mem_map.mp hc
  exact toLower_whitespace (h d hd)

theorem foldl_snoc_eq {α : Type} :
    ∀ (l acc : List α), l.foldl (fun a e => a ++ [e]) acc = acc ++ l := by
  intro l
  induction l with
  | nil => intro acc; simp
  | cons e es ih => intro acc; rw [List.foldl_cons, ih]; simp

theorem toList_append (s t : String) : (s ++ t).toList = s.toList ++ t.toList := by
  show (s ++ t).data = s.data ++ t.data
  exact String.data_append s t

theorem lowerL_append (a b : List Char) :
    lowerL (a ++ b) = lowerL a ++ lowerL b := by
  simp [lowerL]

theorem toList_lowerS (s : String) : (lowerS s).toList = lowerL s.toList := rfl

/-- The normalized search text of an index row, as a character list:
lowercased id, Chinese name and English name joined by single spaces. -/
theorem processRecord_search_text (fname : String) (data : JVal) :
    (processRecord fname data).search_text.toList
      = (lowerL (idStr (resolveId data)).toList ++ [' ']
          ++ lowerL (extractNames data).1.toList) ++ [' ']
          ++ lowerL (extractNames data).2.toList := by
  show (lowerS (idStr (resolveId data) ++ " " ++ (extractNames data).1 ++ " "
      ++ (extractNames data).2)).toList = _
  rw [toList_lowerS, toList_append, toList_append, toList_append, toList_append,
    lowerL_append, lowerL_append, lowerL_append, lowerL_append]
  rw [show lowerL " ".toList = [' '] from rfl]

/-- The fallback full text, as a character list: lowercased English name,
a space, lowercased Chinese name. -/
theorem fallbackFullText_eq (data : JVal) :
    fallbackFullText data
      = lowerL (extractNames data).2.toList ++ [' ']
          ++ lowerL (extractNames data).1.toList := by
  unfold fallbackFullText
  rw [toList_append, toList_append, lowerL_append, lowerL_append]
  rw [show lowerL " ".toList = [' '] from rfl]


/-! ## Small evaluation lemmas for the id chain and the search wrapper -/

theorem pyOr_of_truthy {a : JVal} (b : JVal) (h : a.truthy = true) :
    pyOr a b = a := by
  simp [pyOr, h]

theorem pyOr_of_falsy {a : JVal} (b : JVal) (h : a.truthy = false) :
    pyOr a b = b := by
  simp [pyOr, h]

theorem idStr_of_truthy {v : JVal} (h : v.truthy = true) :
    idStr v = v.pyStr := by
  cases v <;> first | rfl | simp [JVal.truthy] at h

theorem search_eq (rows : List IndexRow) (keyword : String) (limit : Nat) :
    search rows keyword limit =
      if pyTokens keyword = [] then .error "near LIMIT: syntax error"
      else .ok ((rows.filter (rowMatches (pyTokens keyword))).take limit) := by
  unfold search
  rcases h : pyTokens keyword with _ | ⟨t, ts⟩ <;> simp [h]

/-! ## Claim theorems -/

/-- C3: running the sync operation twice against the same manifest and the
same table data produces identical change-log file content: each
invocation truncates the file and rewrites it from scratch (the final
content is exactly the freshly computed entry list, independent of
whatever the file held before), so the second run's output equals the
first run's. -/
theorem C3_sync_idempotent (tables : List (String × List SRecord))
    (manifest : List ManifestEntry) (prior : List ChangeEntry) :
    runSync tables manifest prior = getSDEUpdate tables manifest
    ∧ runSync tables manifest (runSync tables manifest prior)
        = runSync tables manifest prior := by
  constructor
  · unfold runSync
    rw [foldl_snoc_eq]
    simp
  · rfl

/-- C9 counterexample: an index rebuild that fails during `build_index`
does NOT restore the Index Store contents observed before the operation:
starting from a store holding one row, the failed rebuild leaves the
store empty, because `clear_db` commits its `DELETE FROM items` before
`build_index` starts and `build_index`'s rollback cannot undo it. -/
theorem C9_counterexample_cleared :
    indexWorkerRun [rowX] [("a.jsonl", [])] false = []
    ∧ ([] : List IndexRow) ≠ [rowX] := by
  constructor
  · rfl
  · simp

/-- C9 amended: if `rebuildIndex` aborts with an error during
`build_index`, the Index Store is left empty — the state produced by the
already-committed `clear_db` — rather than with its prior contents;
`build_index` itself does roll back its own uncommitted inserts, leaving
the state it was given unchanged. -/
theorem C9_amended_failed_rebuild (st : List IndexRow)
    (files : List (String × List JVal)) :
    indexWorkerRun st files false = []
    ∧ build_index_run st files false = st :=
  ⟨rfl, rfl⟩

/-- C10: `EveDB.search` requires at least one whitespace-separated token:
it yields an error exactly when the tokenized keyword is empty (the
generated SQL then has an empty `WHERE` clause, a SQLite syntax error),
it yields a result list exactly when at least one token exists, and an
empty or whitespace-only keyword always tokenizes to the empty list. -/
theorem C10_empty_keyword_error (rows : List IndexRow) (keyword : String)
    (limit : Nat) :
    ((∃ e, search rows keyword limit = .error e) ↔ pyTokens keyword = [])
    ∧ ((∃ rs, search rows keyword limit = .ok rs) ↔ pyTokens keyword ≠ [])
    ∧ ((∀ c ∈ keyword.toList, c.isWhitespace = true) → pyTokens keyword = []) := by
  refine ⟨?_, ?_, pyTokens_all_ws keyword⟩
  · rw [search_eq]
    rcases h : pyTokens keyword with _ | ⟨t, ts⟩
    · simp
    · simp
  · rw [search_eq]
    rcases h : pyTokens keyword with _ | ⟨t, ts⟩
    · simp
    · simp

/-- C10 witness: the whitespace-only keyword `"  "` has no tokens and
makes `search` fail with an error. -/
theorem C10_empty_keyword_error_witness :
    (∀ c ∈ ("  " : String).toList, c.isWhitespace = true)
    ∧ pyTokens "  " = []
    ∧ (∃ e, search [] "  " 5 = .error e) := by
  have h := C10_empty_keyword_error [] "  " 5
  refine ⟨by decide, h.2.2 (by decide), h.1.mpr (h.2.2 (by decide))⟩

/-- C7: the fallback (index-less) search keeps a record iff every token
of the whitespace-split lowercased keyword either occurs as a direct
substring of the lowercased concatenated localized names, or — failing
that — occurs in order as a subsequence of that text; in particular the
keyword `"高辟邪"` matches a record named `"高级辟邪"` through the
subsequence rule even though it is not a substring. -/
theorem C7_fallback_subsequence :
    (∀ (keyword : String) (data : JVal),
        fallbackRecordMatch keyword data = true ↔
          ∀ kw ∈ pyTokens keyword,
            SubstrOf kw (fallbackFullText data)
            ∨ kw.Sublist (fallbackFullText data))
    ∧ fallbackRecordMatch "高辟邪" recGao = true
    ∧ ¬ SubstrOf "高辟邪".toList (fallbackFullText recGao)
    ∧ ("高辟邪".toList).Sublist (fallbackFullText recGao) := by
  have hmain : ∀ (keyword : String) (data : JVal),
      fallbackRecordMatch keyword data = true ↔
        ∀ kw ∈ pyTokens keyword,
          SubstrOf kw (fallbackFullText data)
          ∨ kw.Sublist (fallbackFullText data) := by
    intro keyword data
    unfold fallbackRecordMatch
    rw [List.all_eq_true]
    constructor
    · intro h kw hkw
      have hv := h kw hkw
      unfold fallbackTokenMatch at hv
      simp only [Bool.or_eq_true] at hv
      rcases hv with h1 | h2
      · exact Or.inl ((matchSub_iff _ _).mp h1)
      · exact Or.inr ((greedySub_iff _ _).mp h2)
    · intro h kw hkw
      unfold fallbackTokenMatch
      simp only [Bool.or_eq_true]
      rcases h kw hkw with h1 | h2
      · exact Or.inl ((matchSub_iff _ _).mpr h1)
      · exact Or.inr ((greedySub_iff _ _).mpr h2)
  refine ⟨hmain, rfl, ?_, ?_⟩
  · intro hsub
    exact absurd ((matchSub_iff _ _).mpr hsub) (by decide)
  · exact (greedySub_iff _ _).mp (by decide)

/-- C4 counterexample: the indexed path does NOT implement plain
substring matching per token — `LIKE` wildcards inside tokens change the
semantics. The row of the record with id `"34"` and name `"Tritanium"`
is returned for the keyword `"3_"` although `"3_"` is not a substring of
its normalized search text (`_` matches the `4` as a `LIKE` wildcard),
refuting the claimed "row returned iff every token is a substring". -/
theorem C4_counterexample_wildcard :
    search [row34] "3_" 1000 = .ok [row34]
    ∧ ¬ SubstrOf "3_".toList row34.search_text.toList := by
  constructor
  · rfl
  · intro hsub
    exact absurd ((matchSub_iff _ _).mpr hsub) (by decide)

/-- C4 amended: the indexed search lowercases the keyword and splits it
on whitespace; a row is in the (uncapped) match set iff every token
`LIKE`-matches its normalized search text, where `%` and `_` inside a
token act as wildcards. For keywords whose tokens contain no wildcard —
such as `"34 tritanium"` — this is exactly plain substring matching with
logical AND across tokens, as the claim states. -/
theorem C4_amended_substring_semantics (rows : List IndexRow)
    (keyword : String) (r : IndexRow)
    (hw : ∀ kw ∈ pyTokens keyword, noWild kw = true) :
    r ∈ searchMatches rows keyword ↔
      r ∈ rows ∧ ∀ kw ∈ pyTokens keyword, SubstrOf kw r.search_text.toList := by
  unfold searchMatches
  rw [List.mem_filter]
  apply and_congr_right
  intro _
  unfold rowMatches
  rw [List.all_eq_true]
  constructor
  · intro h kw hkw
    exact (likeMatch_noWild_iff kw _ (hw kw hkw)).mp (h kw hkw)
  · intro h kw hkw
    exact (likeMatch_noWild_iff kw _ (hw kw hkw)).mpr (h kw hkw)

/-- C4 witness: for the wildcard-free two-token query `"34 tritanium"`,
the row with id `"34"`, name `"Tritanium"` matches and the row with id
`"35"`, same name, does not. -/
theorem C4_amended_substring_semantics_witness :
    (∀ kw ∈ pyTokens "34 tritanium", noWild kw = true)
    ∧ row34 ∈ searchMatches [row34, row35] "34 tritanium"
    ∧ row35 ∉ searchMatches [row34, row35] "34 tritanium" := by
  refine ⟨by decide, ?_, ?_⟩
  · refine (C4_amended_substring_semantics [row34, row35] "34 tritanium" row34
      (by decide)).mpr ⟨by simp, ?_⟩
    intro kw hkw
    rw [show pyTokens "34 tritanium" = ["34".toList, "tritanium".toList] from rfl]
      at hkw
    rcases List.mem_cons.mp hkw with rfl | hkw'
    · exact (matchSub_iff _ _).mp (by decide)
    · rcases List.mem_singleton.mp hkw' with rfl
      exact (matchSub_iff _ _).mp (by decide)
  · intro hmem
    rw [show searchMatches [row34, row35] "34 tritanium" = [row34] from rfl,
      List.mem_singleton] at hmem
    exact absurd (congrArg IndexRow.id hmem) (by decide)

/-- C5 counterexample: a record with no resolvable id (none of `_key`,
`id`, `typeID` present) is NOT excluded from indexing — `build_index`
still inserts a row for it, with the empty string as its id. -/
theorem C5_counterexample_no_id_indexed :
    (JVal.jobj []).getKey "_key" = .jnull
    ∧ (JVal.jobj []).getKey "id" = .jnull
    ∧ (JVal.jobj []).getKey "typeID" = .jnull
    ∧ buildIndexRows [("t.jsonl", [.jobj []])]
        = [processRecord "t.jsonl" (.jobj [])]
    ∧ (processRecord "t.jsonl" (.jobj [])).id = "" :=
  ⟨rfl, rfl, rfl, rfl, rfl⟩

/-- C5 amended: every parsed record is inserted as an index row (records
with no resolvable id are NOT excluded — they get the empty-string id,
since the `or`-chain yields Python `None`); the id is resolved through
the Python `or`-chain `_key or id or typeID`, so a truthy `_key` wins,
a falsy `_key` falls through to `id`, and when both are falsy the
`typeID` value (stringified; `""` for `None`) is used; a plain-string
name is used for both locales; and the normalized search text is the
lowercase of `id + " " + name_zh + " " + name_en`. -/
theorem C5_amended_index_row (fname : String) (data : JVal) :
    buildIndexRows [(fname, [data])] = [processRecord fname data]
    ∧ (processRecord fname data).search_text
        = lowerS ((processRecord fname data).id ++ " "
            ++ (processRecord fname data).name_zh ++ " "
            ++ (processRecord fname data).name_en)
    ∧ ((data.getKey "_key").truthy = true →
        (processRecord fname data).id = (data.getKey "_key").pyStr)
    ∧ ((data.getKey "_key").truthy = false →
        (data.getKey "id").truthy = true →
        (processRecord fname data).id = (data.getKey "id").pyStr)
    ∧ ((data.getKey "_key").truthy = false →
        (data.getKey "id").truthy = false →
        (processRecord fname data).id = idStr (data.getKey "typeID"))
    ∧ (∀ s, data.getKey "name" = .jstr s →
        (processRecord fname data).name_zh = s
        ∧ (processRecord fname data).name_en = s) := by
  refine ⟨rfl, rfl, ?_, ?_, ?_, ?_⟩
  · intro h
    show idStr (resolveId data) = _
    unfold resolveId
    rw [pyOr_of_truthy _ h, pyOr_of_truthy _ h]
    exact idStr_of_truthy h
  · intro h1 h2
    show idStr (resolveId data) = _
    unfold resolveId
    rw [pyOr_of_falsy _ h1, pyOr_of_truthy _ h2]
    exact idStr_of_truthy h2
  · intro h1 h2
    show idStr (resolveId data) = _
    unfold resolveId
    rw [pyOr_of_falsy _ h1, pyOr_of_falsy _ h2]
  · intro s hs
    constructor
    · show (extractNames data).1 = s
      unfold extractNames
      rw [hs]
    · show (extractNames data).2 = s
      unfold extractNames
      rw [hs]

/-- C5 witness: for the record with a truthy `_key` of `"34"` and a
mapping name, the inserted row carries id `"34"`. -/
theorem C5_amended_index_row_witness :
    (rec34json.getKey "_key").truthy = true
    ∧ (processRecord "types.jsonl" rec34json).id
        = (rec34json.getKey "_key").pyStr :=
  ⟨by decide, (C5_amended_index_row "types.jsonl" rec34json).2.2.1 (by decide)⟩

/-- C6 counterexample: the total reported to the caller on completion is
NOT the true number of matching rows: with 1001 matching rows in the
index, `SearchWorker.run` reports `len(results) = 1000` (the capped
page length), not the true count 1001. -/
theorem C6_counterexample_capped_count :
    searchWorkerRun (List.replicate 1001 rowX) "x"
      = .ok (List.replicate 1000 rowX, 1000)
    ∧ (searchMatches (List.replicate 1001 rowX) "x").length = 1001
    ∧ (1000 : Nat) ≠ 1001 := by
  have hmatch : rowMatches (pyTokens "x") rowX = true := by decide
  have hfilter : (List.replicate 1001 rowX).filter (rowMatches (pyTokens "x"))
      = List.replicate 1001 rowX :=
    List.filter_eq_self.mpr (fun a ha => by
      rw [List.eq_of_mem_replicate ha]; exact hmatch)
  refine ⟨?_, ?_, by decide⟩
  · unfold searchWorkerRun
    rw [search_eq, if_neg (by decide), hfilter, List.take_replicate]
    rw [show (1000 : Nat) ⊓ 1001 = 1000 by decide]
    show Except.ok (List.replicate 1000 rowX, (List.replicate 1000 rowX).length)
        = _
    rw [List.length_replicate]
  · unfold searchMatches
    rw [hfilter, List.length_replicate]

/-- C6 amended: the indexed search returns at most the configured limit
of 1000 rows, and the count reported to the caller on completion equals
the length of that capped page — `min(true match count, 1000)` — rather
than the true total. -/
theorem C6_amended_reported_count (rows : List IndexRow) (keyword : String)
    (h : pyTokens keyword ≠ []) :
    ∃ rs : List IndexRow,
      searchWorkerRun rows keyword = .ok (rs, rs.length)
      ∧ rs.length ≤ 1000
      ∧ rs.length = min (searchMatches rows keyword).length 1000 := by
  refine ⟨(searchMatches rows keyword).take 1000, ?_, ?_, ?_⟩
  · unfold searchWorkerRun
    rw [search_eq, if_neg h]
    rfl
  · rw [List.length_take]
    exact min_le_left _ _
  · rw [List.length_take]
    exact min_comm _ _

/-- C6 witness: a one-row index with one match reports count 1, which is
both the page length and `min(1, 1000)`. -/
theorem C6_amended_reported_count_witness :
    pyTokens "x" ≠ []
    ∧ ∃ rs : List IndexRow,
        searchWorkerRun [rowX] "x" = .ok (rs, rs.length)
        ∧ rs.length ≤ 1000
        ∧ rs.length = min (searchMatches [rowX] "x").length 1000 :=
  ⟨by decide, C6_amended_reported_count [rowX] "x" (by decide)⟩

/-- C8 counterexample: the fallback path and the indexed path do NOT
agree even when every token matches by direct substring: for the
single-token keyword `"34"` and the record with id `"34"` and name
`"Tritanium"`, the token is a direct substring of the index row's
normalized search text (no subsequence rule involved), the indexed path
accepts the row, yet the fallback path rejects the record — the
fallback only searches the concatenated names, which do not contain the
id. -/
theorem C8_counterexample_id_token :
    pyTokens "34" = ["34".toList]
    ∧ SubstrOf "34".toList (processRecord "types.jsonl" rec34json).search_text.toList
    ∧ indexedRecordMatch "34" "types.jsonl" rec34json = true
    ∧ fallbackRecordMatch "34" rec34json = false :=
  ⟨rfl, (matchSub_iff _ _).mp (by decide), rfl, rfl⟩

/-- C8 amended: the two paths do share AND-across-tokens semantics, but
over different texts (names only vs id + names). Whenever every token of
the keyword is wildcard-free and occurs as a direct substring of a
single lowercased localized-name field of the record, both paths accept:
the fallback keeps the record and the indexed path accepts the
corresponding index row. Full two-sided equivalence fails only because
the indexed text additionally contains the id (and orders the fields
differently), as the counterexample shows. -/
theorem C8_amended_name_substring (keyword fname : String) (data : JVal)
    (h : ∀ kw ∈ pyTokens keyword, noWild kw = true ∧
        (SubstrOf kw (lowerL (extractNames data).2.toList)
         ∨ SubstrOf kw (lowerL (extractNames data).1.toList))) :
    fallbackRecordMatch keyword data = true
    ∧ indexedRecordMatch keyword fname data = true := by
  constructor
  · unfold fallbackRecordMatch
    rw [List.all_eq_true]
    intro kw hkw
    unfold fallbackTokenMatch
    simp only [Bool.or_eq_true]
    left
    apply (matchSub_iff _ _).mpr
    rw [fallbackFullText_eq]
    rcases (h kw hkw).2 with hen | hzh
    · exact substrOf_append_right _ (substrOf_append_right _ hen)
    · exact substrOf_append_left _ hzh
  · unfold indexedRecordMatch rowMatches
    rw [List.all_eq_true]
    intro kw hkw
    apply (likeMatch_noWild_iff kw _ (h kw hkw).1).mpr
    rw [processRecord_search_text]
    rcases (h kw hkw).2 with hen | hzh
    · exact substrOf_append_left _ hen
    · exact substrOf_append_right _
        (substrOf_append_right _ (substrOf_append_left _ hzh))

/-- C8 witness: for the wildcard-free keyword `"tritanium"`, a substring
of the record's English name, both the fallback path and the indexed
path accept the record with id `"34"` and name `"Tritanium"`. -/
theorem C8_amended_name_substring_witness :
    fallbackRecordMatch "tritanium" rec34json = true
    ∧ indexedRecordMatch "tritanium" "types.jsonl" rec34json = true := by
  apply C8_amended_name_substring
  intro kw hkw
  rw [show pyTokens "tritanium" = ["tritanium".toList] from rfl,
    List.mem_singleton] at hkw
  subst hkw
  exact ⟨by decide, Or.inl ((matchSub_iff _ _).mp (by decide))⟩

/-- C1: for a manifest entry on table `T` with `added={A,B}`,
`changed={C}`, `removed={D}`, where `T`'s post-update file holds the
records `A,B,C,E`, the sync operation writes exactly four change-log
entries: `D` with status `removed` carrying the synthesized placeholder
payload, `A` and `B` with status `added`, `C` with status `changed`,
and no entry for `E`. -/
theorem C1_change_completeness
    (T A B C D E : String) (pA pB pC pE : JVal)
    (hT : T ≠ "_meta")
    (hCA : C ≠ A) (hCB : C ≠ B)
    (hEA : E ≠ A) (hEB : E ≠ B) (hEC : E ≠ C) :
    getSDEUpdate [(T, [⟨some A, pA⟩, ⟨some B, pB⟩, ⟨some C, pC⟩, ⟨some E, pE⟩])]
      [{ key := T, added := [A, B], changed := [C], removed := [D],
         fileAdded := false }]
    = [{ table := T, id := some D, status := "removed",
         payload := removedRecord T D },
       { table := T, id := some A, status := "added",
         payload := tagPayload pA T "added" },
       { table := T, id := some B, status := "added",
         payload := tagPayload pB T "added" },
       { table := T, id := some C, status := "changed",
         payload := tagPayload pC T "changed" }] := by
  simp [getSDEUpdate, processEntry, recordStatus, memOpt, List.lookup,
    hT, hCA, hCB, hEA, hEB, hEC]

/-- C1 witness: the scenario at concrete ids and payloads. -/
theorem C1_change_completeness_witness :
    ("invTypes" : String) ≠ "_meta"
    ∧ getSDEUpdate
        [("invTypes", [⟨some "A", .jnull⟩, ⟨some "B", .jnull⟩,
                       ⟨some "C", .jnull⟩, ⟨some "E", .jnull⟩])]
        [{ key := "invTypes", added := ["A", "B"], changed := ["C"],
           removed := ["D"], fileAdded := false }]
      = [{ table := "invTypes", id := some "D", status := "removed",
           payload := removedRecord "invTypes" "D" },
         { table := "invTypes", id := some "A", status := "added",
           payload := tagPayload .jnull "invTypes" "added" },
         { table := "invTypes", id := some "B", status := "added",
           payload := tagPayload .jnull "invTypes" "added" },
         { table := "invTypes", id := some "C", status := "changed",
           payload := tagPayload .jnull "invTypes" "changed" }] :=
  ⟨by decide,
    C1_change_completeness "invTypes" "A" "B" "C" "D" "E" .jnull .jnull .jnull
      .jnull (by decide) (by decide) (by decide) (by decide) (by decide)
      (by decide)⟩

/-- C2: for a manifest entry with `fileAdded=true` and empty `added`,
`changed` and `removed` sets, whose table file holds exactly the records
`X` and `Y`, the sync operation emits exactly two change-log entries,
`X` and `Y`, each with status `added`. -/
theorem C2_fileAdded_implicit_added (T X Y : String) (pX pY : JVal)
    (hT : T ≠ "_meta") :
    getSDEUpdate [(T, [⟨some X, pX⟩, ⟨some Y, pY⟩])]
      [{ key := T, added := [], changed := [], removed := [],
         fileAdded := true }]
    = [{ table := T, id := some X, status := "added",
         payload := tagPayload pX T "added" },
       { table := T, id := some Y, status := "added",
         payload := tagPayload pY T "added" }] := by
  simp [getSDEUpdate, processEntry, recordStatus, memOpt, List.lookup, hT]

/-- C2 witness: the scenario at concrete ids and payloads. -/
theorem C2_fileAdded_implicit_added_witness :
    ("newTable" : String) ≠ "_meta"
    ∧ getSDEUpdate [("newTable", [⟨some "X", .jnull⟩, ⟨some "Y", .jnull⟩])]
        [{ key := "newTable", added := [], changed := [], removed := [],
           fileAdded := true }]
      = [{ table := "newTable", id := some "X", status := "added",
           payload := tagPayload .jnull "newTable" "added" },
         { table := "newTable", id := some "Y", status := "added",
           payload := tagPayload .jnull "newTable" "added" }] :=
  ⟨by decide,
    C2_fileAdded_implicit_added "newTable" "X" "Y" .jnull .jnull (by decide)⟩

end EveSDE
